import Mathlib

/-!
Verification of the TurbuStat radial power-spectrum and dendrogram
statistical pipeline against its specification.

The Python sources embedded here are:
* turbustat/statistics/dendrograms/dendro_stats.py  (std_window,
  Dendrogram_Stats.fit_numfeat, Dendrogram_Stats.make_hists)
* turbustat/statistics/psds.py                      (pspec and the radial grids)
* turbustat/statistics/mvc/mvc.py                   (MVC.__init__, MVC.compute_pspec)
* turbustat/statistics/elliptical_powerlaw.py       (fit_elliptical_powerlaw,
  LogEllipticalPowerLaw2D)

Machine floats are modelled by exact rationals or reals; numpy arrays by
lists or functions out of Fin types; in-place mutation by explicit state
passing; NaN sentinel entries by Option; raised exceptions by Except.
External libraries (numpy primitives, astropy model fitting, statsmodels
OLS) are embedded through their documented semantics, or abstracted as
function parameters where the code treats them as black boxes.
-/

namespace TurbuStat

/-! ## Generic list helpers (numpy primitive semantics) -/

/-- Population variance of a list of rationals: the mean of squared deviations
from the mean.  np.std of the same data is the square root of this quantity;
since the square root is strictly monotone on nonnegative values, comparisons
and positions of maxima of np.std coincide with those of this variance, so the
windowed-std scan of std_window is embedded through it. -/
def listVar (l : List ℚ) : ℚ :=
  ((l.map fun x => (x - l.sum / (l.length : ℚ)) ^ 2).sum) / (l.length : ℚ)

/-- Documented semantics of np.argmax on a 1D array: the index of the first
occurrence of the maximum value (0 for an empty array). -/
def npArgmax (l : List ℚ) : ℕ :=
  match l.maximum with
  | none => 0
  | some m => l.indexOf m

/-- Documented semantics of numpy boolean-mask indexing a[mask]: keep the
entries of the array at the positions where the mask is true, in order. -/
def boolMask {α : Type} (mask : List Bool) (l : List α) : List α :=
  ((l.zip mask).filter (fun p => p.2)).map (fun p => p.1)

/-! ## dendro_stats.py: std_window -/

/-- Embedding of the slice np.std statistics of std_window
(dendro_stats.py, lines 760-767), as population variances: for each window
start k the code computes np.std of the slice y[i - half_size : i + half_size]
with i = k + half_size, i.e. of the size - 1 values starting at position k
(a Python slice excludes its upper endpoint). -/
def stdWindowVars (y : List ℚ) (size : ℕ) : List ℚ :=
  (List.range (y.length + 1 - size)).map
    (fun k => listVar ((y.drop k).take (size - 1)))

/-- Embedding of std_window (dendro_stats.py, lines 744-775): position of the
break, np.argmax of the windowed statistics plus half_size.  The comparisons
underlying np.argmax on the np.std values agree with those on the variances
(square root is strictly monotone), so the returned position is identical. -/
def std_window (y : List ℚ) (size : ℕ) : ℕ :=
  npArgmax (stdWindowVars y size) + (size - 1) / 2

/-- The variance of the window of size - 1 values starting at position i - h,
where h = (size - 1) / 2: the statistic std_window actually records for the
interior position i (the centered window minus its right endpoint). -/
def winVarAt (y : List ℚ) (size i : ℕ) : ℚ :=
  listVar ((y.drop (i - (size - 1) / 2)).take (size - 1))

/-! ## dendro_stats.py: Dendrogram_Stats.fit_numfeat -/

/-- The elementwise boolean array numfeatures > 1 used by fit_numfeat
(dendro_stats.py, line 232). -/
def numfeatMask (numfeatures : List ℤ) : List Bool :=
  numfeatures.map (fun k => decide (1 < k))

/-- nums = self.numfeatures[self.numfeatures > 1] (dendro_stats.py, line 232). -/
def fitNums (numfeatures : List ℤ) : List ℤ :=
  boolMask (numfeatMask numfeatures) numfeatures

/-- deltas = self.min_deltas[self.numfeatures > 1] (dendro_stats.py, line 233). -/
def fitDeltas (deltas : List ℚ) (numfeatures : List ℤ) : List ℚ :=
  boolMask (numfeatMask numfeatures) deltas

/-- The counts handed to std_window, cast to rationals. -/
def fitNumsQ (numfeatures : List ℤ) : List ℚ :=
  (fitNums numfeatures).map (fun z : ℤ => (z : ℚ))

/-- break_pos = std_window(nums, size=size) (dendro_stats.py, line 236). -/
def breakPos (numfeatures : List ℤ) (size : ℕ) : ℕ :=
  std_window (fitNumsQ numfeatures) size

/-- Base-10 logarithm on the reals, the embedding of np.log10 on the positive
values fed to the tail fit. -/
noncomputable def log10 (q : ℚ) : ℝ :=
  Real.logb 10 (q : ℝ)

/-- Ordinary-least-squares slope of a line fit y = a + b x, the closed form of
the statsmodels OLS estimate sm.OLS(y, add_constant(x)).fit().params[-1]
(statsmodels is an external fitting library, embedded through the documented
normal-equations solution). -/
noncomputable def olsSlope (pts : List (ℝ × ℝ)) : ℝ :=
  let n : ℝ := pts.length
  let sx := (pts.map Prod.fst).sum
  let sy := (pts.map Prod.snd).sum
  let sxy := (pts.map fun p => p.1 * p.2).sum
  let sxx := (pts.map fun p => p.1 ^ 2).sum
  (n * sxy - sx * sy) / (n * sxx - sx ^ 2)

/-- The log10-log10 points used for the tail fit: fitvals (dendro_stats.py,
lines 240-241), zipped into (x, y) pairs. -/
noncomputable def fitvals (deltas : List ℚ) (numfeatures : List ℤ) (size : ℕ) :
    List (ℝ × ℝ) :=
  let b := breakPos numfeatures size
  (((fitDeltas deltas numfeatures).drop b).map log10).zip
    (((fitNumsQ numfeatures).drop b).map log10)

/-- Result record of Dendrogram_Stats.fit_numfeat. -/
structure NumfeatFit where
  break_delta : ℚ
  fit_points : List (ℝ × ℝ)
  tail_slope : ℝ

/-- Embedding of Dendrogram_Stats.fit_numfeat (dendro_stats.py, lines 213-253):
warn and return without a fit when only one min_delta value exists; otherwise
mask both arrays to the levels with more than one feature, locate the break by
the moving-window scan, and fit the tail from the break onward by OLS in
log10-log10 space.  none embeds the warn-and-return path. -/
noncomputable def fit_numfeat (deltas : List ℚ) (numfeatures : List ℤ)
    (size : ℕ) : Option NumfeatFit :=
  if numfeatures.length = 1 then none
  else
    let b := breakPos numfeatures size
    some { break_delta := (fitDeltas deltas numfeatures).getD b 0
           fit_points := fitvals deltas numfeatures size
           tail_slope := olsSlope (fitvals deltas numfeatures size) }

/-! ## dendro_stats.py: Dendrogram_Stats.make_hists -/

/-- Bin edges of np.histogram with an integer bins argument: bins + 1 equally
spaced edges spanning the data range (numpy widens a degenerate range by 0.5
on each side). -/
def histEdges (value : List ℚ) (bins : ℕ) : List ℚ :=
  let mn0 := match value with | [] => 0 | x :: xs => xs.foldl min x
  let mx0 := match value with | [] => 1 | x :: xs => xs.foldl max x
  let mn := if mn0 = mx0 then mn0 - 1/2 else mn0
  let mx := if mn0 = mx0 then mx0 + 1/2 else mx0
  (List.range (bins + 1)).map (fun k : ℕ => mn + (k : ℚ) * ((mx - mn) / (bins : ℚ)))

/-- Counts of np.histogram: entry j counts the values with
edges[j] <= v < edges[j+1], the final bin including its right edge. -/
def histCounts (value : List ℚ) (bins : ℕ) : List ℕ :=
  let edges := histEdges value bins
  (List.range bins).map (fun j =>
    (value.filter (fun v =>
      edges.getD j 0 ≤ v ∧
        (if j + 1 = bins then v ≤ edges.getD (j + 1) 0
         else v < edges.getD (j + 1) 0))).length)

/-- Midpoints of consecutive bin edges: bin_cents = (bins[:-1] + bins[1:]) / 2
(dendro_stats.py, line 199). -/
def binCents (edges : List ℚ) : List ℚ :=
  (edges.zip edges.tail).map (fun p => (p.1 + p.2) / 2)

/-- Embedding of Dendrogram_Stats.make_hists (dendro_stats.py, lines 172-202)
with no explicit bins keyword: for each min_delta level either the empty
placeholder [np.zeros((0,))] * 2, or the histogram with
bins = int(np.sqrt(len(value))) bins.  int truncates toward zero, so for the
nonnegative np.sqrt value the bin count is the integer square root
Nat.sqrt (the floor of the square root). -/
def make_hists (values : List (List ℚ)) (min_number : ℕ) :
    List (List ℚ × List ℕ) :=
  values.map (fun value =>
    if value.length < min_number then ([], [])
    else
      let bins := Nat.sqrt value.length
      (binCents (histEdges value bins), histCounts value bins))

/-! ## psds.py: radial distance grids and the pspec binner -/

/-- Pixel offset from center along an axis of extent m:
make_radial_arrays (psds.py, lines 99-108) builds
np.arange(-floor(m/2), m - floor(m/2)), whose entry at index i is
i - floor(m/2). -/
def yyVal (m i : ℕ) : ℤ :=
  (i : ℤ) - (m / 2 : ℕ)

/-- The pixel distances dists = sqrt(yy**2 + xx**2) over the full grid
(psds.py, line 47), flattened. -/
noncomputable def distList (m n : ℕ) : List ℝ :=
  (List.range m).flatMap (fun i => (List.range n).map (fun j =>
    Real.sqrt (((yyVal m i : ℝ)) ^ 2 + ((yyVal n j : ℝ)) ^ 2)))

/-- dists.max() (psds.py, line 50).  Every pixel distance is nonnegative, so
folding max from 0 returns the maximum of the (nonempty) grid. -/
noncomputable def distsMax (m n : ℕ) : ℝ :=
  (distList m n).foldr max 0

/-- Documented semantics of np.round on a scalar: round half to even, exact
elsewhere. -/
noncomputable def npRound (x : ℝ) : ℤ :=
  if Int.fract x = 1/2 then (if Even ⌊x⌋ then ⌊x⌋ else ⌊x⌋ + 1) else round x

/-- nbins = int(np.round(dists.max() / binsize) + 1) (psds.py, line 50); the
Python int() truncation is exact on this integer-valued float. -/
noncomputable def autoNbins (m n : ℕ) (binsize : ℝ) : ℤ :=
  npRound (distsMax m n / binsize) + 1

/-- Number of bins actually used: the given nbins, or the automatic count
(psds.py, lines 49-50). -/
noncomputable def effNbins (m n : ℕ) (nbinsOpt : Option ℕ) (binsize : ℝ) : ℕ :=
  match nbinsOpt with
  | some k => k
  | none => (autoNbins m n binsize).toNat

/-- Default max_bin (psds.py, lines 60-64). -/
noncomputable def effMaxBin (m n : ℕ) (maxBinOpt : Option ℝ)
    (return_freqs : Bool) : ℝ :=
  match maxBinOpt with
  | some v => v
  | none => if return_freqs then 1/2 else distsMax m n

/-- Default min_bin (psds.py, lines 66-70). -/
noncomputable def effMinBin (m n : ℕ) (minBinOpt : Option ℝ)
    (return_freqs : Bool) : ℝ :=
  match minBinOpt with
  | some v => v
  | none => if return_freqs then 1 / ((min m n : ℕ) : ℝ) else 1/2

/-- Bin edge number k out of nbins + 1 (psds.py, lines 72-75):
np.logspace(log10(min_bin), log10(max_bin), nbins + 1) or
np.linspace(min_bin, max_bin, nbins + 1), both with equally spaced steps of
(right - left) / nbins between the endpoints. -/
noncomputable def binEdgeAt (logspacing : Bool) (mn mx : ℝ) (nbins k : ℕ) : ℝ :=
  if logspacing then
    (10 : ℝ) ^ (Real.logb 10 mn +
      (k : ℝ) * ((Real.logb 10 mx - Real.logb 10 mn) / (nbins : ℝ)))
  else
    mn + (k : ℝ) * ((mx - mn) / (nbins : ℝ))

/-- bin_cents = (bin_edge[1:] + bin_edge[:-1]) / 2 (psds.py, line 87): the
midpoints of consecutive edges, one per bin. -/
noncomputable def pspecBinCents (logspacing : Bool) (mn mx : ℝ) (nbins : ℕ) :
    List ℝ :=
  (List.range nbins).map (fun k =>
    (binEdgeAt logspacing mn mx nbins k + binEdgeAt logspacing mn mx nbins (k + 1)) / 2)

/-- Binning pipeline of pspec (psds.py, lines 44-96): the number of bins and
the returned bin centers.  The per-bin aggregation of the power values by
scipy binned_statistic does not affect either, so it is not embedded here. -/
noncomputable def pspec (m n : ℕ) (nbinsOpt : Option ℕ) (binsize : ℝ)
    (logspacing : Bool) (maxBinOpt minBinOpt : Option ℝ)
    (return_freqs : Bool) : ℕ × List ℝ :=
  let nbins := effNbins m n nbinsOpt binsize
  let mx := effMaxBin m n maxBinOpt return_freqs
  let mn := effMinBin m n minBinOpt return_freqs
  (nbins, pspecBinCents logspacing mn mx nbins)

/-! ## mvc.py: the MVC constructor -/

/-- A 2D numpy float array with NaN sentinels: entries are Option ℚ with none
embedding NaN; indices at or beyond the shape hold modeling junk and are
never consulted by in-bounds statements. -/
structure Arr where
  rows : ℕ
  cols : ℕ
  data : ℕ → ℕ → Option ℚ

/-- In-bounds entries of the array, flattened row by row. -/
def Arr.entries (a : Arr) : List (Option ℚ) :=
  (List.range a.rows).flatMap (fun i => (List.range a.cols).map (fun j => a.data i j))

/-- The finite (non-NaN) entries of the array. -/
def Arr.finiteVals (a : Arr) : List ℚ :=
  a.entries.filterMap id

/-- np.nanmin: the minimum over the finite entries, none when no finite entry
exists (numpy then warns and yields NaN). -/
def Arr.nanmin (a : Arr) : Option ℚ :=
  match a.finiteVals with
  | [] => none
  | x :: xs => some (xs.foldl min x)

/-- The array holds at least one finite value. -/
@[reducible] def Arr.hasFinite (a : Arr) : Prop :=
  a.finiteVals ≠ []

/-- The shape tuple of the array. -/
def Arr.shape (a : Arr) : ℕ × ℕ :=
  (a.rows, a.cols)

/-- Embedding of arr[np.isnan(arr)] = np.nanmin(arr) (mvc.py, lines 64-66):
replace every NaN entry by the minimum finite value; when the array holds no
finite value at all, np.nanmin is NaN and the assignment leaves every entry
NaN. -/
def cleanNans (a : Arr) : Arr :=
  match a.nanmin with
  | none => a
  | some v => { a with data := fun i j => some ((a.data i j).getD v) }

/-- Post-construction state of an MVC object: the three cleaned arrays. -/
structure MVCState where
  centroid : Arr
  moment0 : Arr
  linewidth : Arr

/-- The IndexError message raised on mismatched shapes (mvc.py, lines 71-72). -/
def shapeErrorMsg : String :=
  "The centroid, moment0, and linewidth arrays musthave the same shape."

/-- Embedding of MVC.__init__ (mvc.py, lines 37-76) after input_data has
produced the three raw arrays (input_data returns the caller arrays
themselves, without copying).  The NaN replacement mutates the arrays in
place first; the shape check runs afterwards.  The in-place mutation is made
explicit by returning, next to the Except outcome, the post-call state of the
three caller arrays. -/
def mvcInit (centroid moment0 linewidth : Arr) :
    Except String MVCState × (Arr × Arr × Arr) :=
  let c := cleanNans centroid
  let m0 := cleanNans moment0
  let lw := cleanNans linewidth
  if c.shape = m0.shape ∧ c.shape = lw.shape then
    (Except.ok ⟨c, m0, lw⟩, (c, m0, lw))
  else
    (Except.error shapeErrorMsg, (c, m0, lw))

/-! ## mvc.py: MVC.compute_pspec -/

/-- Index shift of np.fft.fftshift along one axis: the zero-frequency entry
moves to the array center, entry k of the shifted array being entry
(k + ceil(m/2)) mod m of the original. -/
def shiftIdx {m : ℕ} (k : Fin m) : Fin m :=
  ⟨(k.val + (m + 1) / 2) % m, Nat.mod_lt _ k.pos⟩

/-- np.fft.fftshift on a 2D array: both axes shifted. -/
def fftshift {m n : ℕ} {α : Type} (A : Fin m → Fin n → α) : Fin m → Fin n → α :=
  fun k l => A (shiftIdx k) (shiftIdx l)

/-- Documented semantics of np.fft.fft2: the 2D discrete Fourier transform
with negative exponent and no normalization. -/
noncomputable def fft2 {m n : ℕ} (A : Fin m → Fin n → ℂ) : Fin m → Fin n → ℂ :=
  fun k l => ∑ a : Fin m, ∑ b : Fin n,
    A a b * Complex.exp (-2 * Real.pi * Complex.I *
      (((k.val * a.val : ℕ) : ℂ) / (m : ℂ) + ((l.val * b.val : ℕ) : ℂ) / (n : ℂ)))

/-- np.nanmean on a 2D array of possibly-NaN entries: the sum of the finite
entries divided by their count. -/
noncomputable def nanmeanO {m n : ℕ} (A : Fin m → Fin n → Option ℝ) : ℝ :=
  (∑ i, ∑ j, (A i j).getD 0) /
    (∑ i : Fin m, ∑ j : Fin n, if (A i j).isSome then (1 : ℝ) else 0)

/-- Plain arithmetic mean of a 2D array. -/
noncomputable def meanF {m n : ℕ} (A : Fin m → Fin n → ℝ) : ℝ :=
  (∑ i, ∑ j, A i j) / ((m : ℝ) * (n : ℝ))

/-- Embedding of MVC.compute_pspec (mvc.py, lines 99-123) on the cleaned,
NaN-free fields guaranteed by the constructor (see mvcInit and cleanNans):
term1 = fft2(centroid * moment0), term2 = np.nanmean(linewidth**2 +
centroid**2), mvc_fft = term1 - term2 * fft2(moment0) shifted to the center,
and ps2D = abs(mvc_fft)**2. -/
noncomputable def compute_pspec {m n : ℕ}
    (centroid moment0 linewidth : Fin m → Fin n → ℝ) : Fin m → Fin n → ℝ :=
  let term1 := fft2 (fun i j => ((centroid i j * moment0 i j : ℝ) : ℂ))
  let term2 : ℝ := nanmeanO (fun i j => some (linewidth i j ^ 2 + centroid i j ^ 2))
  let mvc_fft := fun k l =>
    term1 k l - (term2 : ℂ) * fft2 (fun i j => ((moment0 i j : ℝ) : ℂ)) k l
  let shifted := fftshift mvc_fft
  fun k l => Complex.abs (shifted k l) ^ 2

/-- The power spectrum as the specification words it:
PS = abs(FFT(f1 * f2) - mean(f3^2 + f1^2) * FFT(f2))^2, the zero-frequency
term shifted to the array center before the squared magnitude is taken. -/
noncomputable def specPspec {m n : ℕ}
    (f1 f2 f3 : Fin m → Fin n → ℝ) : Fin m → Fin n → ℝ :=
  fun k l => Complex.abs
    (fftshift (fun k2 l2 =>
       fft2 (fun i j => ((f1 i j * f2 i j : ℝ) : ℂ)) k2 l2 -
       ((meanF (fun i j => f3 i j ^ 2 + f1 i j ^ 2) : ℝ) : ℂ) *
         fft2 (fun i j => ((f2 i j : ℝ) : ℂ)) k2 l2) k l) ^ 2

/-! ## elliptical_powerlaw.py -/

/-- Parameter vector of LogEllipticalPowerLaw2D, in the source order
logamplitude, ellip_transf, theta, gamma. -/
structure Params where
  logamplitude : ℝ
  ellip_transf : ℝ
  theta : ℝ
  gamma : ℝ

/-- The parameters as a vector, in source order. -/
def Params.vec (p : Params) : Fin 4 → ℝ :=
  ![p.logamplitude, p.ellip_transf, p.theta, p.gamma]

/-- Embedding of LogEllipticalPowerLaw2D.evaluate (elliptical_powerlaw.py,
lines 157-179).  np.log10 of a nonpositive argument is non-finite, and the
source zeroes every non-finite model value (line 177), so the evaluation is
the log-power formula when the quadratic form is positive and 0 otherwise. -/
noncomputable def evaluate (p : Params) (x y : ℝ) : ℝ :=
  let ellip := 1 / (1 + Real.exp (-p.ellip_transf))
  let costhet := Real.cos p.theta
  let sinthet := Real.sin p.theta
  let q := ellip
  let term1 := (q * costhet) ^ 2 + sinthet ^ 2
  let term2 := 2 * (1 - q ^ 2) * sinthet * costhet
  let term3 := (q * sinthet) ^ 2 + costhet ^ 2
  let arg := x ^ 2 * term1 + x * y * term2 + y ^ 2 * term3
  if 0 < arg then p.logamplitude + 0.5 * p.gamma * Real.logb 10 arg else 0

/-- Python float modulo: x % y = x - y * floor(x / y), in [0, y) for y > 0. -/
noncomputable def realMod (x y : ℝ) : ℝ :=
  x - y * ⌊x / y⌋

/-- p0_f: the initial guess with theta offset by pi / 2 modulo pi
(elliptical_powerlaw.py, lines 37-38). -/
noncomputable def thetaShift (p0 : Params) : Params :=
  { p0 with theta := realMod (p0.theta + Real.pi / 2) Real.pi }

/-- np.sum(np.abs(values - fit_model(x, y))) (elliptical_powerlaw.py,
lines 34 and 44). -/
noncomputable def totalAbsResid {N : ℕ} (values x y : Fin N → ℝ) (p : Params) : ℝ :=
  ∑ i, |values i - evaluate p (x i) (y i)|

/-- A covariance matrix over the four parameters. -/
def Cov : Type := Fin 4 → Fin 4 → ℝ

/-- Abstraction of one call fitting.LevMarLSQFitter()(model, x, y, z): from
the initial parameters of the model and the data arrays it returns the
fitted parameters together with the param_cov entry the fit leaves in the
fit_info of the fitter object (none when the covariance computation failed).
astropy.modeling is an external fitting library, so the minimizer is a
parameter of the embedding; the algorithm is deterministic and carries no
per-instance state besides fit_info, so distinct LevMarLSQFitter instances
are modelled by one function, and the fit_info slot of each instance is
tracked explicitly. -/
def LevMar (N : ℕ) : Type :=
  Params → (Fin N → ℝ) → (Fin N → ℝ) → (Fin N → ℝ) → Params × Option Cov

/-- resamp_y = y + resid[np.random.permutation(resid.size)]
(elliptical_powerlaw.py, line 63): the fit residuals, rearranged by a random
permutation (each residual used exactly once), are added to the y COORDINATE
array.  The random permutation drawn at each iteration is a parameter of the
embedding. -/
noncomputable def bootResampY {N : ℕ} (y residv : Fin N → ℝ)
    (σ : Equiv.Perm (Fin N)) : Fin N → ℝ :=
  fun i => y i + residv (σ i)

/-- Documented semantics of np.percentile with the default linear
interpolation on a 1D array. -/
noncomputable def npPercentile (q : ℝ) (l : List ℝ) : ℝ :=
  let s := l.insertionSort (· ≤ ·)
  let h := ((l.length : ℝ) - 1) * q / 100
  let lo := (⌊h⌋).toNat
  let hi := (⌈h⌉).toNat
  s.getD lo 0 + (h - (⌊h⌋ : ℝ)) * (s.getD hi 0 - s.getD lo 0)

/-- Result of fit_elliptical_powerlaw: the retained parameters, the standard
errors (none embeds the all-NaN standard-error vector), and whether the
covariance warning fired. -/
structure EPLResult where
  params : Params
  stderrs : Option (Fin 4 → ℝ)
  warned : Bool

/-- Embedding of fit_elliptical_powerlaw (elliptical_powerlaw.py, lines
9-111) on finite data with fit_method = LevMarq.  The model is fit from p0
and from p0 with theta offset by pi/2 mod pi; the second fit is run by
calling the FIRST fitter object again (source line 42 passes model_f to
fitter, not to the freshly created fitter_f), so after it the fit_info of the
first fitter belongs to the second fit while fitter_f holds none.  The fit
with the lower total absolute residual is kept (strictly lower for the
shifted fit, since the test is resids > resids_f).  Bootstrap errors permute
the residuals onto the y coordinate (see bootResampY) and take half-widths of
central percentile intervals; covariance errors read param_cov from the
selected fitter object, degrading to none (NaN) plus a warning when absent. -/
noncomputable def fit_elliptical_powerlaw {N : ℕ}
    (levmar : LevMar N) (values x y : Fin N → ℝ) (p0 : Params)
    (bootstrap : Bool) (niters : ℕ) (alpha : ℝ)
    (perms : Fin niters → Equiv.Perm (Fin N)) : EPLResult :=
  let call1 := levmar p0 x y values
  let fit_model := call1.1
  let resids := totalAbsResid values x y fit_model
  let call2 := levmar (thetaShift p0) x y values
  let fit_model_f := call2.1
  let fitterInfo : Option Cov := call2.2
  let fitterFInfo : Option Cov := none
  let resids_f := totalAbsResid values x y fit_model_f
  let flip := resids > resids_f
  let finalModel := if flip then fit_model_f else fit_model
  let finalInfo := if flip then fitterFInfo else fitterInfo
  if bootstrap then
    let residv : Fin N → ℝ := fun i => values i - evaluate finalModel (x i) (y i)
    let bootP : Fin niters → Params := fun it =>
      (levmar finalModel x (bootResampY y residv (perms it)) values).1
    let stderr : Fin 4 → ℝ := fun j =>
      let row : List ℝ := (List.finRange niters).map (fun it => Params.vec (bootP it) j)
      0.5 * (npPercentile (100 * (0.5 + alpha / 2)) row -
             npPercentile (100 * (0.5 - alpha / 2)) row)
    { params := finalModel, stderrs := some stderr, warned := false }
  else
    match finalInfo with
    | none => { params := finalModel, stderrs := none, warned := true }
    | some cov => { params := finalModel,
                    stderrs := some (fun j => Real.sqrt |cov j j|),
                    warned := false }

/-- The retained parameters as the specification words them: of the two
fitted models, the one with the lower total absolute residual
sum(abs(values - model(x, y))), the unshifted fit on a tie. -/
noncomputable def specRetained {N : ℕ} (levmar : LevMar N)
    (values x y : Fin N → ℝ) (p0 : Params) : Params :=
  let fit1 := (levmar p0 x y values).1
  let fit2 := (levmar (thetaShift p0) x y values).1
  if totalAbsResid values x y fit2 < totalAbsResid values x y fit1
  then fit2 else fit1

/-- The property the specification ascribes to the NaN replacement of the MVC
constructor: finite entries are kept, every NaN entry becomes the minimum
finite value of that field, and no NaN remains. -/
def cleanedCorrectly (a : Arr) : Prop :=
  (∀ i j x, a.data i j = some x → (cleanNans a).data i j = some x) ∧
  (∀ i j, a.data i j = none →
     ∃ v, (cleanNans a).data i j = some v ∧ v ∈ a.finiteVals ∧
          ∀ w ∈ a.finiteVals, v ≤ w) ∧
  (∀ i j, ((cleanNans a).data i j).isSome)

/-- A concrete covariance matrix with ones on the diagonal. -/
def covDiag1 : Cov := fun _ _ => 1

/-- A concrete covariance matrix with fours on the diagonal. -/
def covDiag4 : Cov := fun _ _ => 4

/-- A probe fitter: every fit converges to the same parameters (so the two
fits of fit_elliptical_powerlaw tie on residuals), but the covariance
reported from the unshifted initial guess (theta = 0) is covDiag1 while any
other initial guess reports covDiag4. -/
noncomputable def levmarProbe : LevMar 1 := fun p _ _ _ =>
  (⟨0, 0, 0, 0⟩, if p.theta = 0 then some covDiag1 else some covDiag4)

/-- The unshifted initial guess used with levmarProbe. -/
noncomputable def p0Probe : Params := ⟨0, 0, 0, 0⟩

/-! ## Helper lemmas -/

theorem maximum_exists {l : List ℚ} (h : l ≠ []) : ∃ m : ℚ, l.maximum = some m := by
  have hne : l.maximum ≠ ⊥ := fun hb => h (List.maximum_eq_bot.mp hb)
  obtain ⟨m, hm⟩ := WithBot.ne_bot_iff_exists.mp hne
  exact ⟨m, hm.symm⟩

theorem npArgmax_eq_indexOf {l : List ℚ} {m : ℚ} (hm : l.maximum = some m) :
    npArgmax l = l.indexOf m := by
  unfold npArgmax
  rw [hm]

theorem npArgmax_lt_length {l : List ℚ} (h : l ≠ []) : npArgmax l < l.length := by
  obtain ⟨m, hm⟩ := maximum_exists h
  rw [npArgmax_eq_indexOf hm]
  exact List.indexOf_lt_length.mpr (List.maximum_mem hm)

theorem getD_eq_get {α : Type} (l : List α) (d : α) {i : ℕ} (hi : i < l.length) :
    l.getD i d = l.get ⟨i, hi⟩ := by
  simp [List.getD_eq_getElem?_getD, List.getElem?_eq_getElem hi]

theorem getD_npArgmax_eq_max {l : List ℚ} {m : ℚ} (hm : l.maximum = some m) :
    l.getD (npArgmax l) 0 = m := by
  have hmem := List.maximum_mem hm
  have hlt : l.indexOf m < l.length := List.indexOf_lt_length.mpr hmem
  rw [npArgmax_eq_indexOf hm, getD_eq_get l 0 hlt]
  exact List.indexOf_get hlt

theorem getD_le_getD_npArgmax {l : List ℚ} (h : l ≠ []) (i : ℕ) (hi : i < l.length) :
    l.getD i 0 ≤ l.getD (npArgmax l) 0 := by
  obtain ⟨m, hm⟩ := maximum_exists h
  rw [getD_npArgmax_eq_max hm, getD_eq_get l 0 hi]
  exact List.le_maximum_of_mem (l.get_mem _ _) hm

theorem getD_lt_getD_npArgmax {l : List ℚ} (h : l ≠ []) (i : ℕ) (hi : i < l.length)
    (hlt : i < npArgmax l) :
    l.getD i 0 < l.getD (npArgmax l) 0 := by
  obtain ⟨m, hm⟩ := maximum_exists h
  rw [getD_npArgmax_eq_max hm, getD_eq_get l 0 hi]
  rcases lt_or_eq_of_le (List.le_maximum_of_mem (l.get_mem i hi) hm) with hcase | hcase
  · exact hcase
  · exfalso
    rw [npArgmax_eq_indexOf hm] at hlt
    have hlt2 : i < List.findIdx (fun x => x == m) l := hlt
    have hfalse := List.not_of_lt_findIdx hlt2
    have : l.get ⟨i, hi⟩ = m := hcase
    simp [List.get_eq_getElem] at this
    simp [this] at hfalse

theorem foldl_min_mem : ∀ (xs : List ℚ) (x : ℚ), xs.foldl min x ∈ x :: xs := by
  intro xs
  induction xs with
  | nil => intro x; simp
  | cons y ys ih =>
    intro x
    have h := ih (min x y)
    rcases List.mem_cons.mp h with h1 | h1
    · rcases min_choice x y with hc | hc <;> rw [List.foldl_cons, h1, hc] <;> simp
    · simp [List.foldl_cons, List.mem_cons.mpr (Or.inr (List.mem_cons.mpr (Or.inr h1)))]

theorem foldl_min_le : ∀ (xs : List ℚ) (x : ℚ), ∀ w ∈ x :: xs, xs.foldl min x ≤ w := by
  intro xs
  induction xs with
  | nil => intro x w hw; simp at hw; simp [hw]
  | cons y ys ih =>
    intro x w hw
    rw [List.foldl_cons]
    rcases List.mem_cons.mp hw with h1 | h1
    · calc ys.foldl min (min x y) ≤ min x y :=
            ih (min x y) (min x y) (List.mem_cons_self _ _)
        _ ≤ x := min_le_left _ _
        _ = w := h1.symm
    · rcases List.mem_cons.mp h1 with h2 | h2
      · calc ys.foldl min (min x y) ≤ min x y :=
              ih (min x y) (min x y) (List.mem_cons_self _ _)
          _ ≤ y := min_le_right _ _
          _ = w := h2.symm
      · exact ih (min x y) w (List.mem_cons.mpr (Or.inr h2))

theorem boolMask_cons (b : Bool) (ms : List Bool) {α : Type} (x : α) (l : List α) :
    boolMask (b :: ms) (x :: l) = if b then x :: boolMask ms l else boolMask ms l := by
  cases b <;> simp [boolMask, List.filter_cons]

theorem boolMask_mask_zip {α β : Type} (p : β → Bool) :
    ∀ (xs : List α) (ys : List β), xs.length = ys.length →
      (boolMask (ys.map p) xs).zip (boolMask (ys.map p) ys)
        = (xs.zip ys).filter (fun q => p q.2) := by
  intro xs
  induction xs with
  | nil => intro ys h; simp [boolMask]
  | cons x xs ih =>
    intro ys h
    cases ys with
    | nil => simp at h
    | cons y ys =>
      have hlen : xs.length = ys.length := by simpa using h
      simp only [List.map_cons, boolMask_cons, List.zip_cons_cons, List.filter_cons]
      cases hp : p y with
      | false => simpa [hp] using ih ys hlen
      | true => simp [hp, ih ys hlen]

theorem mem_boolMask_self {β : Type} (p : β → Bool) :
    ∀ (ys : List β), ∀ y ∈ boolMask (ys.map p) ys, p y := by
  intro ys
  induction ys with
  | nil => intro y hy; simp [boolMask] at hy
  | cons z zs ih =>
    intro y hy
    rw [List.map_cons, boolMask_cons] at hy
    cases hp : p z with
    | false => rw [hp] at hy; simp at hy; exact ih y hy
    | true =>
      rw [hp] at hy
      simp at hy
      rcases hy with h1 | h1
      · rw [h1]; exact hp
      · exact ih y h1

theorem stdWindowVars_length (y : List ℚ) (size : ℕ) :
    (stdWindowVars y size).length = y.length + 1 - size := by
  simp [stdWindowVars]

theorem stdWindowVars_getD (y : List ℚ) (size k : ℕ) (hk : k < y.length + 1 - size) :
    (stdWindowVars y size).getD k 0 = listVar ((y.drop k).take (size - 1)) := by
  have hk2 : k < (stdWindowVars y size).length := by rw [stdWindowVars_length]; exact hk
  rw [getD_eq_get _ 0 hk2]
  simp [stdWindowVars]

theorem zip_map_drop {α β γ δ : Type} (f : α → γ) (g : β → δ) (A : List α)
    (B : List β) (b : ℕ) :
    ((A.drop b).map f).zip ((B.drop b).map g)
      = ((A.zip B).drop b).map (fun p => (f p.1, g p.2)) := by
  have h1 : ((A.drop b).map f).zip ((B.drop b).map g)
      = ((A.drop b).zip (B.drop b)).map (Prod.map f g) := List.zip_map f g _ _
  have h2 : (A.zip B).drop b = (A.drop b).zip (B.drop b) := by
    simp [List.zip, List.drop_zipWith]
  have h3 : (Prod.map f g : α × β → γ × δ) = fun p => (f p.1, g p.2) := by
    funext p
    cases p
    rfl
  rw [h1, h2, h3]

/-- C2 is corrected: at the count sequence [2,2,2,2,2,2,3] (all counts exceed
1, so the >1 filtering keeps every level) with the default window size 5, the
break scan returns position 2, yet the standard deviation of the five counts
centered at position 2 is 0 while the one centered at position 4 is
sqrt(4/25) > 0: the returned break is not a position of maximal
centered-window standard deviation, and the statistic the code records for
interior positions is not the standard deviation of the five centered values
(the Python slice y[i - half_size : i + half_size] drops the right endpoint
of the centered window). -/
theorem C2_counterexample :
    breakPos [2, 2, 2, 2, 2, 2, 3] 5 = 2 ∧
    fitNumsQ [2, 2, 2, 2, 2, 2, 3] = [2, 2, 2, 2, 2, 2, 3] ∧
    listVar (((fitNumsQ [2, 2, 2, 2, 2, 2, 3]).drop (2 - 2)).take 5) = 0 ∧
    listVar (((fitNumsQ [2, 2, 2, 2, 2, 2, 3]).drop (4 - 2)).take 5) = 4/25 ∧
    Real.sqrt 0 < Real.sqrt (4/25) := by
  refine ⟨?_, ?_, ?_, ?_, Real.sqrt_lt_sqrt le_rfl (by norm_num)⟩
  · norm_num [breakPos, std_window, stdWindowVars, List.range_succ, listVar,
      npArgmax, List.maximum_cons, List.indexOf, List.findIdx_cons,
      fitNumsQ, fitNums, numfeatMask, boolMask]
  · norm_num [fitNumsQ, fitNums, numfeatMask, boolMask]
  · norm_num [fitNumsQ, fitNums, numfeatMask, boolMask, listVar]
  · norm_num [fitNumsQ, fitNums, numfeatMask, boolMask, listVar]

/-- C2 (amended): in the break detection of fit_numfeat with odd window size
w, the statistic recorded at an interior position i is the standard deviation
of the w - 1 count values y[i-h .. i+h-1] (h = (w-1)/2; the centered window
without its right endpoint, since the Python slice excludes its upper bound);
the returned break position is the first interior position whose windowed
standard deviation is maximal; and the tail fit uses exactly the (delta,
count) points from that break position onward, as an ordinary least-squares
line in log10-log10 space.  Standard deviations are compared through their
squares (the variances), which the strictly monotone square root preserves. -/
theorem C2_break_scan_amended (deltas : List ℚ) (numfeatures : List ℤ)
    (size : ℕ) (hodd : Odd size)
    (hlen : size ≤ (fitNumsQ numfeatures).length) :
    ((size - 1) / 2 ≤ breakPos numfeatures size ∧
       breakPos numfeatures size + (size - 1) / 2 < (fitNumsQ numfeatures).length) ∧
    (∀ i, (size - 1) / 2 ≤ i → i + (size - 1) / 2 < (fitNumsQ numfeatures).length →
       winVarAt (fitNumsQ numfeatures) size i
         ≤ winVarAt (fitNumsQ numfeatures) size (breakPos numfeatures size)) ∧
    (∀ i, (size - 1) / 2 ≤ i → i + (size - 1) / 2 < (fitNumsQ numfeatures).length →
       i < breakPos numfeatures size →
       winVarAt (fitNumsQ numfeatures) size i
         < winVarAt (fitNumsQ numfeatures) size (breakPos numfeatures size)) ∧
    (numfeatures.length ≠ 1 →
       fit_numfeat deltas numfeatures size = some
         { break_delta := (fitDeltas deltas numfeatures).getD (breakPos numfeatures size) 0
           fit_points :=
             (((fitDeltas deltas numfeatures).zip (fitNumsQ numfeatures)).drop
                 (breakPos numfeatures size)).map (fun p => (log10 p.1, log10 p.2))
           tail_slope := olsSlope ((((fitDeltas deltas numfeatures).zip
                 (fitNumsQ numfeatures)).drop (breakPos numfeatures size)).map
                 (fun p => (log10 p.1, log10 p.2))) }) := by
  obtain ⟨hh, hsz⟩ : ∃ h : ℕ, size = 2 * h + 1 := by
    obtain ⟨k, hk⟩ := hodd; exact ⟨k, by omega⟩
  set y := fitNumsQ numfeatures with hy
  set stds := stdWindowVars y size with hstds
  have hslen : stds.length = y.length + 1 - size := stdWindowVars_length y size
  have hsne : stds ≠ [] := by
    have : 0 < stds.length := by omega
    exact List.ne_nil_of_length_pos this
  have hamax : npArgmax stds < stds.length := npArgmax_lt_length hsne
  have hbrk : breakPos numfeatures size = npArgmax stds + (size - 1) / 2 := by
    rw [breakPos, std_window]
  have hhalf : (size - 1) / 2 = hh := by omega
  set b := breakPos numfeatures size with hb
  have hbv : b = npArgmax stds + hh := by rw [hbrk, hhalf]
  have hwin : ∀ i, hh ≤ i → i + hh < y.length →
      winVarAt y size i = stds.getD (i - hh) 0 := by
    intro i hi1 hi2
    rw [winVarAt, hhalf, hstds, stdWindowVars_getD y size (i - hh) (by omega)]
  have hinterior : hh ≤ b ∧ b + hh < y.length := by
    constructor
    · omega
    · omega
  refine ⟨by rw [hhalf]; exact hinterior, ?_, ?_, ?_⟩
  · intro i hi1 hi2
    rw [hhalf] at hi1 hi2
    rw [hwin i hi1 hi2, hwin b hinterior.1 hinterior.2]
    have : b - hh = npArgmax stds := by omega
    rw [this]
    exact getD_le_getD_npArgmax hsne (i - hh) (by omega)
  · intro i hi1 hi2 hib
    rw [hhalf] at hi1 hi2
    rw [hwin i hi1 hi2, hwin b hinterior.1 hinterior.2]
    have hba : b - hh = npArgmax stds := by omega
    rw [hba]
    exact getD_lt_getD_npArgmax hsne (i - hh) (by omega) (by omega)
  · intro hne1
    rw [fit_numfeat, if_neg hne1]
    have hfv : fitvals deltas numfeatures size
        = (((fitDeltas deltas numfeatures).zip (fitNumsQ numfeatures)).drop
            (breakPos numfeatures size)).map (fun p => (log10 p.1, log10 p.2)) := by
      rw [fitvals]
      exact zip_map_drop log10 log10 _ _ _
    rw [hfv]

/-- Witness instantiating C2_break_scan_amended at a concrete input. -/
theorem C2_break_scan_amended_witness :
    Odd 5 ∧ 5 ≤ (fitNumsQ [10, 9, 8, 7, 6, 5]).length ∧
    (((5 - 1) / 2 ≤ breakPos [10, 9, 8, 7, 6, 5] 5 ∧
       breakPos [10, 9, 8, 7, 6, 5] 5 + (5 - 1) / 2
         < (fitNumsQ [10, 9, 8, 7, 6, 5]).length) ∧
     (∀ i, (5 - 1) / 2 ≤ i → i + (5 - 1) / 2 < (fitNumsQ [10, 9, 8, 7, 6, 5]).length →
        winVarAt (fitNumsQ [10, 9, 8, 7, 6, 5]) 5 i
          ≤ winVarAt (fitNumsQ [10, 9, 8, 7, 6, 5]) 5 (breakPos [10, 9, 8, 7, 6, 5] 5)) ∧
     (∀ i, (5 - 1) / 2 ≤ i → i + (5 - 1) / 2 < (fitNumsQ [10, 9, 8, 7, 6, 5]).length →
        i < breakPos [10, 9, 8, 7, 6, 5] 5 →
        winVarAt (fitNumsQ [10, 9, 8, 7, 6, 5]) 5 i
          < winVarAt (fitNumsQ [10, 9, 8, 7, 6, 5]) 5 (breakPos [10, 9, 8, 7, 6, 5] 5)) ∧
     ([(1 : ℚ), 2, 3, 4, 5, 6].length ≠ 1 →
        fit_numfeat [(1 : ℚ), 2, 3, 4, 5, 6] [10, 9, 8, 7, 6, 5] 5 = some
          { break_delta := (fitDeltas [(1 : ℚ), 2, 3, 4, 5, 6] [10, 9, 8, 7, 6, 5]).getD
              (breakPos [10, 9, 8, 7, 6, 5] 5) 0
            fit_points :=
              (((fitDeltas [(1 : ℚ), 2, 3, 4, 5, 6] [10, 9, 8, 7, 6, 5]).zip
                  (fitNumsQ [10, 9, 8, 7, 6, 5])).drop
                  (breakPos [10, 9, 8, 7, 6, 5] 5)).map (fun p => (log10 p.1, log10 p.2))
            tail_slope := olsSlope ((((fitDeltas [(1 : ℚ), 2, 3, 4, 5, 6]
                  [10, 9, 8, 7, 6, 5]).zip (fitNumsQ [10, 9, 8, 7, 6, 5])).drop
                  (breakPos [10, 9, 8, 7, 6, 5] 5)).map
                  (fun p => (log10 p.1, log10 p.2))) })) := by
  refine ⟨by decide, by decide, ?_⟩
  have hmain := C2_break_scan_amended [(1 : ℚ), 2, 3, 4, 5, 6] [10, 9, 8, 7, 6, 5] 5
    (by decide) (by decide)
  refine ⟨hmain.1, hmain.2.1, hmain.2.2.1, ?_⟩
  intro hne
  exact hmain.2.2.2 (by decide)

/-- C10: fit_numfeat masks both the min_delta array and the feature-count
array with the elementwise condition numfeatures > 1 before the break scan
and the tail fit: the masked (delta, count) pairs are exactly the pairs with
count strictly greater than 1, every count entering the scan exceeds 1, and
the tail-fit points are drawn from the masked pairs only. -/
theorem C10_fit_numfeat_filter (deltas : List ℚ) (numfeatures : List ℤ)
    (hlen : deltas.length = numfeatures.length) :
    ((fitDeltas deltas numfeatures).zip (fitNums numfeatures)
        = (deltas.zip numfeatures).filter (fun q => decide (1 < q.2))) ∧
    (∀ z ∈ fitNums numfeatures, 1 < z) ∧
    (∀ q ∈ (fitDeltas deltas numfeatures).zip (fitNums numfeatures), 1 < q.2) ∧
    (∀ q ∈ deltas.zip numfeatures, 1 < q.2 →
        q ∈ (fitDeltas deltas numfeatures).zip (fitNums numfeatures)) := by
  have hmain : (fitDeltas deltas numfeatures).zip (fitNums numfeatures)
      = (deltas.zip numfeatures).filter (fun q => decide (1 < q.2)) := by
    rw [fitDeltas, fitNums, numfeatMask]
    exact boolMask_mask_zip (fun z => decide (1 < z)) deltas numfeatures hlen
  refine ⟨hmain, ?_, ?_, ?_⟩
  · intro z hz
    have := mem_boolMask_self (fun z => decide (1 < z)) numfeatures z
    rw [← numfeatMask] at this
    simpa using this (by simpa [fitNums] using hz)
  · intro q hq
    rw [hmain] at hq
    have := List.of_mem_filter hq
    simpa using this
  · intro q hq hq2
    rw [hmain]
    exact List.mem_filter.mpr ⟨hq, by simpa using hq2⟩

/-- Witness instantiating C10_fit_numfeat_filter at a concrete input. -/
theorem C10_fit_numfeat_filter_witness :
    [(1 : ℚ), 2, 3, 4].length = [(0 : ℤ), 5, 1, 7].length ∧
    (((fitDeltas [(1 : ℚ), 2, 3, 4] [(0 : ℤ), 5, 1, 7]).zip
        (fitNums [(0 : ℤ), 5, 1, 7])
        = ([(1 : ℚ), 2, 3, 4].zip [(0 : ℤ), 5, 1, 7]).filter
            (fun q => decide (1 < q.2))) ∧
     (∀ z ∈ fitNums [(0 : ℤ), 5, 1, 7], 1 < z) ∧
     (∀ q ∈ (fitDeltas [(1 : ℚ), 2, 3, 4] [(0 : ℤ), 5, 1, 7]).zip
         (fitNums [(0 : ℤ), 5, 1, 7]), 1 < q.2) ∧
     (∀ q ∈ [(1 : ℚ), 2, 3, 4].zip [(0 : ℤ), 5, 1, 7], 1 < q.2 →
         q ∈ (fitDeltas [(1 : ℚ), 2, 3, 4] [(0 : ℤ), 5, 1, 7]).zip
               (fitNums [(0 : ℤ), 5, 1, 7]))) :=
  ⟨by decide, C10_fit_numfeat_filter [(1 : ℚ), 2, 3, 4] [(0 : ℤ), 5, 1, 7] (by decide)⟩

theorem make_hists_getD (values : List (List ℚ)) (mn i : ℕ)
    (hi : i < values.length) :
    (make_hists values mn).getD i ([], []) =
      (if (values.get ⟨i, hi⟩).length < mn then (([] : List ℚ), ([] : List ℕ))
       else (binCents (histEdges (values.get ⟨i, hi⟩)
               (Nat.sqrt (values.get ⟨i, hi⟩).length)),
             histCounts (values.get ⟨i, hi⟩)
               (Nat.sqrt (values.get ⟨i, hi⟩).length))) := by
  have hlen : i < (make_hists values mn).length := by
    simpa [make_hists] using hi
  rw [getD_eq_get _ _ hlen]
  simp [make_hists]

theorem histCounts_length (value : List ℚ) (bins : ℕ) :
    (histCounts value bins).length = bins := by
  rw [histCounts, List.length_map, List.length_range]

theorem histEdges_length (value : List ℚ) (bins : ℕ) :
    (histEdges value bins).length = bins + 1 := by
  unfold histEdges
  rw [List.length_map, List.length_range]

theorem binCents_length (edges : List ℚ) :
    (binCents edges).length = edges.length - 1 := by
  rw [binCents, List.length_map, List.length_zip, List.length_tail]
  omega

theorem binCents_histEdges_length (value : List ℚ) (bins : ℕ) :
    (binCents (histEdges value bins)).length = bins := by
  rw [binCents_length, histEdges_length]
  omega

/-- C4 is corrected: for a threshold level with 13 peak values (more than
min_number = 10), the histogram make_hists builds has int(np.sqrt(13)) = 3
bins, whereas round(sqrt(13)) = 4: the default bin count is the floor of
sqrt(N), not its rounding. -/
theorem C4_counterexample :
    ((make_hists [(List.range 13).map (fun k : ℕ => (k : ℚ))] 10).getD 0
        ([], [])).2.length = 3 ∧
    round (Real.sqrt 13) = (4 : ℤ) ∧ (3 : ℤ) ≠ 4 := by
  refine ⟨?_, ?_, by decide⟩
  · have h13 : ((List.range 13).map (fun k : ℕ => (k : ℚ))).length = 13 := by
      rw [List.length_map, List.length_range]
    have hsq : Nat.sqrt 13 = 3 :=
      (Nat.eq_sqrt.mpr (by norm_num)).symm
    rw [make_hists_getD _ 10 0 (by norm_num)]
    have hget : ([(List.range 13).map (fun k : ℕ => (k : ℚ))]).get
        ⟨0, by norm_num⟩ = (List.range 13).map (fun k : ℕ => (k : ℚ)) := rfl
    rw [hget, if_neg (by rw [h13]; norm_num), h13, hsq]
    exact histCounts_length _ _
  · have h1 : Real.sqrt 13 ^ 2 = 13 := Real.sq_sqrt (by norm_num)
    have h2 : (0 : ℝ) ≤ Real.sqrt 13 := Real.sqrt_nonneg _
    rw [round_eq, Int.floor_eq_iff]
    constructor
    · push_cast
      nlinarith
    · push_cast
      nlinarith

/-- C4 (amended): make_hists, for every threshold level with feature peak
value list of length N, records the empty histogram placeholder (a pair of
empty arrays) when N is less than min_number (default 10), and otherwise
builds a 1D histogram whose default bin count is floor(sqrt(N)) — the code
computes int(np.sqrt(N)), which truncates the square root — with that many
counts and that many bin centers. -/
theorem C4_make_hists (values : List (List ℚ)) (min_number i : ℕ)
    (hi : i < values.length) :
    ((values.getD i []).length < min_number →
       (make_hists values min_number).getD i ([], []) = ([], [])) ∧
    (min_number ≤ (values.getD i []).length →
       ((make_hists values min_number).getD i ([], [])).1.length
           = Nat.sqrt (values.getD i []).length ∧
       ((make_hists values min_number).getD i ([], [])).2.length
           = Nat.sqrt (values.getD i []).length) := by
  have hv : values.getD i [] = values.get ⟨i, hi⟩ := getD_eq_get _ _ hi
  rw [hv, make_hists_getD values min_number i hi]
  constructor
  · intro hlt
    rw [if_pos hlt]
  · intro hge
    rw [if_neg (by omega)]
    exact ⟨binCents_histEdges_length _ _, histCounts_length _ _⟩

/-- Witness instantiating C4_make_hists at concrete inputs, one level below
min_number and one at it. -/
theorem C4_make_hists_witness :
    (0 < ([[(3 : ℚ), 1, 4], [(5 : ℚ), 5, 5, 5, 5, 5, 5, 5, 5, 5]]).length ∧
     1 < ([[(3 : ℚ), 1, 4], [(5 : ℚ), 5, 5, 5, 5, 5, 5, 5, 5, 5]]).length) ∧
    (((([[(3 : ℚ), 1, 4], [(5 : ℚ), 5, 5, 5, 5, 5, 5, 5, 5, 5]]).getD 0 []).length < 10 →
       (make_hists [[(3 : ℚ), 1, 4], [(5 : ℚ), 5, 5, 5, 5, 5, 5, 5, 5, 5]] 10).getD 0
           ([], []) = ([], [])) ∧
     (10 ≤ (([[(3 : ℚ), 1, 4], [(5 : ℚ), 5, 5, 5, 5, 5, 5, 5, 5, 5]]).getD 0 []).length →
       ((make_hists [[(3 : ℚ), 1, 4], [(5 : ℚ), 5, 5, 5, 5, 5, 5, 5, 5, 5]] 10).getD 0
           ([], [])).1.length
           = Nat.sqrt (([[(3 : ℚ), 1, 4], [(5 : ℚ), 5, 5, 5, 5, 5, 5, 5, 5, 5]]).getD 0 []).length ∧
       ((make_hists [[(3 : ℚ), 1, 4], [(5 : ℚ), 5, 5, 5, 5, 5, 5, 5, 5, 5]] 10).getD 0
           ([], [])).2.length
           = Nat.sqrt (([[(3 : ℚ), 1, 4], [(5 : ℚ), 5, 5, 5, 5, 5, 5, 5, 5, 5]]).getD 0 []).length)) ∧
    (((([[(3 : ℚ), 1, 4], [(5 : ℚ), 5, 5, 5, 5, 5, 5, 5, 5, 5]]).getD 1 []).length < 10 →
       (make_hists [[(3 : ℚ), 1, 4], [(5 : ℚ), 5, 5, 5, 5, 5, 5, 5, 5, 5]] 10).getD 1
           ([], []) = ([], [])) ∧
     (10 ≤ (([[(3 : ℚ), 1, 4], [(5 : ℚ), 5, 5, 5, 5, 5, 5, 5, 5, 5]]).getD 1 []).length →
       ((make_hists [[(3 : ℚ), 1, 4], [(5 : ℚ), 5, 5, 5, 5, 5, 5, 5, 5, 5]] 10).getD 1
           ([], [])).1.length
           = Nat.sqrt (([[(3 : ℚ), 1, 4], [(5 : ℚ), 5, 5, 5, 5, 5, 5, 5, 5, 5]]).getD 1 []).length ∧
       ((make_hists [[(3 : ℚ), 1, 4], [(5 : ℚ), 5, 5, 5, 5, 5, 5, 5, 5, 5]] 10).getD 1
           ([], [])).2.length
           = Nat.sqrt (([[(3 : ℚ), 1, 4], [(5 : ℚ), 5, 5, 5, 5, 5, 5, 5, 5, 5]]).getD 1 []).length)) :=
  ⟨⟨by decide, by decide⟩,
   C4_make_hists [[(3 : ℚ), 1, 4], [(5 : ℚ), 5, 5, 5, 5, 5, 5, 5, 5, 5]] 10 0 (by decide),
   C4_make_hists [[(3 : ℚ), 1, 4], [(5 : ℚ), 5, 5, 5, 5, 5, 5, 5, 5, 5]] 10 1 (by decide)⟩

theorem cleanNans_shape (a : Arr) : (cleanNans a).shape = a.shape := by
  unfold cleanNans
  cases a.nanmin <;> rfl

theorem nanmin_spec (a : Arr) (ha : a.hasFinite) :
    ∃ v, a.nanmin = some v ∧ v ∈ a.finiteVals ∧ ∀ w ∈ a.finiteVals, v ≤ w := by
  unfold Arr.nanmin
  cases hfv : a.finiteVals with
  | nil => exact absurd hfv ha
  | cons x xs =>
    exact ⟨xs.foldl min x, rfl, foldl_min_mem xs x, foldl_min_le xs x⟩

theorem cleanedCorrectly_of_hasFinite (a : Arr) (ha : a.hasFinite) :
    cleanedCorrectly a := by
  obtain ⟨v, hv, hvmem, hvle⟩ := nanmin_spec a ha
  have hclean : cleanNans a = { a with data := fun i j => some ((a.data i j).getD v) } := by
    unfold cleanNans
    rw [hv]
  refine ⟨?_, ?_, ?_⟩
  · intro i j x hx
    rw [hclean]
    simp [hx]
  · intro i j hx
    refine ⟨v, ?_, hvmem, hvle⟩
    rw [hclean]
    simp [hx]
  · intro i j
    rw [hclean]
    simp

/-- C8: the MVC constructor fails with the shape-mismatch IndexError exactly
when the three supplied arrays do not all share one shape; on identically
shaped inputs no error is raised. -/
theorem C8_shape_mismatch (centroid moment0 linewidth : Arr) :
    (∃ e, (mvcInit centroid moment0 linewidth).1 = Except.error e) ↔
      ¬(centroid.shape = moment0.shape ∧ centroid.shape = linewidth.shape) := by
  have hc := cleanNans_shape centroid
  have hm := cleanNans_shape moment0
  have hl := cleanNans_shape linewidth
  simp only [mvcInit]
  split_ifs with h
  · rw [hc, hm, hl] at h
    constructor
    · rintro ⟨e, he⟩
      exact he.elim
    · intro hn
      exact absurd h hn
  · rw [hc, hm, hl] at h
    exact ⟨fun _ => h, fun _ => ⟨shapeErrorMsg, rfl⟩⟩

/-- C7: constructing an MVC first replaces, in each of the three arrays,
every NaN entry by the minimum finite value of that array — in place: the
post-call state of the caller arrays is the cleaned arrays whatever the
outcome — and only then checks shapes; after cleaning no NaN remains (so
compute_pspec never sees one even when the caller did not pre-clean), and
when the shape check fails the input arrays have already been mutated at
every NaN position: construction is not atomic on error. -/
theorem C7_nan_cleaning (centroid moment0 linewidth : Arr)
    (hc : centroid.hasFinite) (hm : moment0.hasFinite)
    (hl : linewidth.hasFinite) :
    ((mvcInit centroid moment0 linewidth).2
        = (cleanNans centroid, cleanNans moment0, cleanNans linewidth)) ∧
    cleanedCorrectly centroid ∧ cleanedCorrectly moment0 ∧
    cleanedCorrectly linewidth ∧
    (∀ i j, centroid.data i j = none →
       (mvcInit centroid moment0 linewidth).2.1.data i j ≠ centroid.data i j) := by
  have hpost : (mvcInit centroid moment0 linewidth).2
      = (cleanNans centroid, cleanNans moment0, cleanNans linewidth) := by
    simp only [mvcInit]
    split_ifs <;> rfl
  have hcc := cleanedCorrectly_of_hasFinite centroid hc
  refine ⟨hpost, hcc, cleanedCorrectly_of_hasFinite moment0 hm,
    cleanedCorrectly_of_hasFinite linewidth hl, ?_⟩
  intro i j hnone
  rw [hpost]
  obtain ⟨v, hv, -, -⟩ := hcc.2.1 i j hnone
  rw [hv, hnone]
  exact Option.some_ne_none v

/-- Witness instantiating C7_nan_cleaning: a centroid with one NaN and one
finite entry, and two co-registered fields of a different shape. -/
theorem C7_nan_cleaning_witness :
    ((Arr.mk 1 2 (fun i j => if i = 0 ∧ j = 0 then none else some 3)).hasFinite ∧
     (Arr.mk 1 1 (fun _ _ => some 1)).hasFinite ∧
     (Arr.mk 1 1 (fun _ _ => some 2)).hasFinite) ∧
    (((mvcInit (Arr.mk 1 2 (fun i j => if i = 0 ∧ j = 0 then none else some 3))
          (Arr.mk 1 1 (fun _ _ => some 1)) (Arr.mk 1 1 (fun _ _ => some 2))).2
        = (cleanNans (Arr.mk 1 2 (fun i j => if i = 0 ∧ j = 0 then none else some 3)),
           cleanNans (Arr.mk 1 1 (fun _ _ => some 1)),
           cleanNans (Arr.mk 1 1 (fun _ _ => some 2)))) ∧
     cleanedCorrectly (Arr.mk 1 2 (fun i j => if i = 0 ∧ j = 0 then none else some 3)) ∧
     cleanedCorrectly (Arr.mk 1 1 (fun _ _ => some 1)) ∧
     cleanedCorrectly (Arr.mk 1 1 (fun _ _ => some 2)) ∧
     (∀ i j, (Arr.mk 1 2 (fun i j => if i = 0 ∧ j = 0 then none else some 3)).data i j = none →
        (mvcInit (Arr.mk 1 2 (fun i j => if i = 0 ∧ j = 0 then none else some 3))
            (Arr.mk 1 1 (fun _ _ => some 1)) (Arr.mk 1 1 (fun _ _ => some 2))).2.1.data i j
          ≠ (Arr.mk 1 2 (fun i j => if i = 0 ∧ j = 0 then none else some 3)).data i j)) :=
  ⟨⟨by decide, by decide, by decide⟩,
   C7_nan_cleaning _ _ _ (by decide) (by decide) (by decide)⟩

theorem nanmeanO_allSome {m n : ℕ} (g : Fin m → Fin n → ℝ) :
    nanmeanO (fun i j => some (g i j)) = meanF g := by
  unfold nanmeanO meanF
  have hnum : (∑ i : Fin m, ∑ j : Fin n, ((some (g i j)).getD 0))
      = ∑ i, ∑ j, g i j := by simp
  have hden : (∑ i : Fin m, ∑ j : Fin n, if (some (g i j)).isSome then (1 : ℝ) else 0)
      = (m : ℝ) * n := by
    simp [Finset.sum_const, Finset.card_univ]
  rw [hnum, hden]

/-- C6: for any three same-shape (finite-valued) fields, MVC.compute_pspec
produces exactly abs(FFT(f1 * f2) - mean(f3^2 + f1^2) * FFT(f2))^2 with the
zero-frequency term shifted to the array center before the squared magnitude
is taken (on NaN-free fields the nanmean of the code is the plain mean). -/
theorem C6_compute_pspec {m n : ℕ} (f1 f2 f3 : Fin m → Fin n → ℝ) :
    compute_pspec f1 f2 f3 = specPspec f1 f2 f3 := by
  funext k l
  simp only [compute_pspec, specPspec, nanmeanO_allSome]

theorem le_foldr_max (l : List ℝ) (d : ℝ) : d ≤ l.foldr max d := by
  induction l with
  | nil => simp
  | cons x xs ih =>
    rw [List.foldr_cons]
    exact le_trans ih (le_max_right x _)

theorem distsMax_nonneg (m n : ℕ) : 0 ≤ distsMax m n := by
  unfold distsMax
  exact le_foldr_max _ 0

theorem npRound_nonneg {x : ℝ} (hx : 0 ≤ x) : 0 ≤ npRound x := by
  unfold npRound
  have hfl : (0 : ℤ) ≤ ⌊x⌋ := Int.floor_nonneg.mpr hx
  split_ifs with h1 h2
  · exact hfl
  · omega
  · rw [round_eq]
    exact Int.floor_nonneg.mpr (by linarith)

theorem binEdgeAt_lt (logspacing : Bool) (mn mx : ℝ) (nbins : ℕ)
    (hmm : mn < mx) (hpos : logspacing = true → 0 < mn) (hnb : 0 < nbins)
    (k1 k2 : ℕ) (hk : k1 < k2) :
    binEdgeAt logspacing mn mx nbins k1 < binEdgeAt logspacing mn mx nbins k2 := by
  have hkr : (k1 : ℝ) < (k2 : ℝ) := by exact_mod_cast hk
  have hnbr : (0 : ℝ) < (nbins : ℝ) := by exact_mod_cast hnb
  cases logspacing with
  | false =>
    simp only [binEdgeAt, Bool.false_eq_true, if_false]
    have hstep : 0 < (mx - mn) / (nbins : ℝ) := div_pos (by linarith) hnbr
    nlinarith
  | true =>
    have h0 : 0 < mn := hpos rfl
    have hlog : Real.logb 10 mn < Real.logb 10 mx :=
      Real.logb_lt_logb (by norm_num) h0 hmm
    simp only [binEdgeAt, if_true]
    rw [Real.rpow_lt_rpow_left_iff (by norm_num : (1 : ℝ) < 10)]
    have hstep : 0 < (Real.logb 10 mx - Real.logb 10 mn) / (nbins : ℝ) :=
      div_pos (by linarith) hnbr
    nlinarith

theorem pspecBinCents_length (logspacing : Bool) (mn mx : ℝ) (nbins : ℕ) :
    (pspecBinCents logspacing mn mx nbins).length = nbins := by
  rw [pspecBinCents, List.length_map, List.length_range]

theorem pspecBinCents_getD (logspacing : Bool) (mn mx : ℝ) (nbins k : ℕ)
    (hk : k < nbins) :
    (pspecBinCents logspacing mn mx nbins).getD k 0 =
      (binEdgeAt logspacing mn mx nbins k + binEdgeAt logspacing mn mx nbins (k + 1)) / 2 := by
  have hk2 : k < (pspecBinCents logspacing mn mx nbins).length := by
    rw [pspecBinCents_length]; exact hk
  rw [getD_eq_get _ 0 hk2]
  simp [pspecBinCents]

/-- C9: in the radial binner pspec, when nbins is not supplied the bin count
is np.round(max_distance / binsize) + 1 with max_distance the maximum pixel
distance from center (dists.max()); the returned profile has exactly nbins
bin centers; and whenever min_bin < max_bin (for log-spaced bins also
0 < min_bin, since np.logspace takes log10 of the bounds) the bin centers are
strictly increasing. -/
theorem C9_pspec_bins (m n : ℕ) (nbinsOpt : Option ℕ) (binsize : ℝ)
    (logspacing return_freqs : Bool) (maxBinOpt minBinOpt : Option ℝ)
    (hbs : 0 < binsize)
    (hmm : effMinBin m n minBinOpt return_freqs < effMaxBin m n maxBinOpt return_freqs)
    (hpos : logspacing = true → 0 < effMinBin m n minBinOpt return_freqs) :
    (((pspec m n none binsize logspacing maxBinOpt minBinOpt return_freqs).1 : ℤ)
        = npRound (distsMax m n / binsize) + 1) ∧
    ((pspec m n nbinsOpt binsize logspacing maxBinOpt minBinOpt return_freqs).2.length
        = (pspec m n nbinsOpt binsize logspacing maxBinOpt minBinOpt return_freqs).1) ∧
    (∀ i j, i < j →
       j < (pspec m n nbinsOpt binsize logspacing maxBinOpt minBinOpt return_freqs).2.length →
       (pspec m n nbinsOpt binsize logspacing maxBinOpt minBinOpt return_freqs).2.getD i 0
         < (pspec m n nbinsOpt binsize logspacing maxBinOpt minBinOpt return_freqs).2.getD j 0) := by
  refine ⟨?_, ?_, ?_⟩
  · show ((effNbins m n none binsize : ℕ) : ℤ) = npRound (distsMax m n / binsize) + 1
    have hx : 0 ≤ distsMax m n / binsize :=
      div_nonneg (distsMax_nonneg m n) (le_of_lt hbs)
    have hnn : 0 ≤ npRound (distsMax m n / binsize) := npRound_nonneg hx
    simp only [effNbins, autoNbins]
    omega
  · simp only [pspec]
    exact pspecBinCents_length _ _ _ _
  · intro i j hij hj
    simp only [pspec] at hj ⊢
    rw [pspecBinCents_length] at hj
    have hnb : 0 < effNbins m n nbinsOpt binsize := by omega
    rw [pspecBinCents_getD _ _ _ _ i (by omega), pspecBinCents_getD _ _ _ _ j hj]
    have h1 := binEdgeAt_lt logspacing _ _ _ hmm hpos hnb i j hij
    have h2 := binEdgeAt_lt logspacing _ _ _ hmm hpos hnb (i + 1) (j + 1) (by omega)
    linarith

/-- Witness instantiating C9_pspec_bins at a concrete configuration. -/
theorem C9_pspec_bins_witness :
    ((0 : ℝ) < 1 ∧ effMinBin 2 2 (some 1) false < effMaxBin 2 2 (some 2) false ∧
      (false = true → 0 < effMinBin 2 2 (some 1) false)) ∧
    ((((pspec 2 2 none 1 false (some 2) (some 1) false).1 : ℤ)
        = npRound (distsMax 2 2 / 1) + 1) ∧
     ((pspec 2 2 (some 3) 1 false (some 2) (some 1) false).2.length
        = (pspec 2 2 (some 3) 1 false (some 2) (some 1) false).1) ∧
     (∀ i j, i < j →
        j < (pspec 2 2 (some 3) 1 false (some 2) (some 1) false).2.length →
        (pspec 2 2 (some 3) 1 false (some 2) (some 1) false).2.getD i 0
          < (pspec 2 2 (some 3) 1 false (some 2) (some 1) false).2.getD j 0)) := by
  have hmm : effMinBin 2 2 (some 1) false < effMaxBin 2 2 (some 2) false := by
    simp only [effMinBin, effMaxBin]
    norm_num
  have hpos : (false = true) → (0 : ℝ) < effMinBin 2 2 (some 1) false := by
    intro hcontra
    exact absurd hcontra (by simp)
  have happ := C9_pspec_bins 2 2 (some 3) 1 false false (some 2) (some 1)
    (by norm_num) hmm hpos
  exact ⟨⟨by norm_num, hmm, hpos⟩, happ⟩

/-- C5: the 2D elliptical power-law fit is performed twice — once from the
given initial theta and once from theta offset by pi/2 modulo pi — and the
parameters returned are those of the fitted model with the lower total
absolute residual sum(abs(values - model(x, y))); on a tie the unshifted fit
is retained (the source tests resids > resids_f, strict). -/
theorem C5_lower_residual_retained {N : ℕ} (levmar : LevMar N)
    (values x y : Fin N → ℝ) (p0 : Params) (bootstrap : Bool) (niters : ℕ)
    (alpha : ℝ) (perms : Fin niters → Equiv.Perm (Fin N)) :
    (fit_elliptical_powerlaw levmar values x y p0 bootstrap niters alpha
        perms).params = specRetained levmar values x y p0 := by
  cases bootstrap with
  | true =>
    simp only [fit_elliptical_powerlaw, specRetained, gt_iff_lt, if_true]
  | false =>
    simp only [fit_elliptical_powerlaw, specRetained, gt_iff_lt,
      Bool.false_eq_true, if_false]
    split_ifs with h
    · rfl
    · cases (levmar (thetaShift p0) x y values).2 <;> rfl

/-- C3 is a code bug: with a probe fitter for which both fits return
identical parameters (so the residuals tie and the unshifted fit is
retained) but the fit from the unshifted guess reports covariance covDiag1
while the refit from the shifted guess reports covDiag4, the standard errors
that fit_elliptical_powerlaw reports are sqrt(diag(covDiag4)) = 2, not the
sqrt(diag(covDiag1)) = 1 of the retained fit: source line 42 runs the second
fit on the FIRST fitter object, so the fit_info it later reads belongs to the
shifted fit (and when the shifted fit is retained, the never-used fitter_f is
read instead, yielding NaN errors). -/
theorem C3_covariance_of_wrong_fit :
    (fit_elliptical_powerlaw levmarProbe (fun _ => 0) (fun _ => 0) (fun _ => 0)
        p0Probe false 100 0.6827 (fun _ => Equiv.refl (Fin 1))).stderrs
      = some (fun _ => 2) ∧
    (∀ j : Fin 4, Real.sqrt |covDiag1 j j| = 1) ∧ ((2 : ℝ) ≠ 1) := by
  have hπ : Real.pi / 2 ≠ 0 := ne_of_gt (by positivity)
  have hmod : realMod (0 + Real.pi / 2) Real.pi = Real.pi / 2 := by
    unfold realMod
    rw [zero_add, div_right_comm, div_self Real.pi_ne_zero]
    have hfl : ⌊(1 / 2 : ℝ)⌋ = 0 := by
      rw [Int.floor_eq_zero_iff]
      constructor <;> norm_num
    rw [hfl]
    simp
  have hts : thetaShift p0Probe = ⟨0, 0, Real.pi / 2, 0⟩ := by
    unfold thetaShift p0Probe
    rw [show (Params.mk 0 0 0 0).theta = 0 from rfl]
    rw [hmod]
  have hc1 : levmarProbe p0Probe (fun _ => 0) (fun _ => 0) (fun _ => 0)
      = (⟨0, 0, 0, 0⟩, some covDiag1) := by
    unfold levmarProbe
    rw [if_pos (show p0Probe.theta = 0 from rfl)]
  have hc2 : levmarProbe (thetaShift p0Probe) (fun _ => 0) (fun _ => 0)
      (fun _ => 0) = (⟨0, 0, 0, 0⟩, some covDiag4) := by
    rw [hts]
    unfold levmarProbe
    rw [if_neg (show ¬(Params.mk 0 0 (Real.pi / 2) 0).theta = 0 from hπ)]
  refine ⟨?_, ?_, by norm_num⟩
  · simp only [fit_elliptical_powerlaw, hc1, hc2, gt_iff_lt, lt_self_iff_false,
      if_false, Bool.false_eq_true]
    congr 1
    funext j
    rw [show covDiag4 j j = 4 from rfl,
      abs_of_nonneg (by norm_num : (0 : ℝ) ≤ 4),
      show (4 : ℝ) = 2 ^ 2 by norm_num]
    exact Real.sqrt_sq (by norm_num)
  · intro j
    rw [show covDiag1 j j = 1 from rfl, abs_one, Real.sqrt_one]

/-- C1 is a code bug: each bootstrap iteration of fit_elliptical_powerlaw
adds a permutation of the fit residuals — each residual used exactly once,
i.e. sampling WITHOUT replacement — to the y coordinate array and refits with
the dependent data unchanged, instead of resampling residuals with
replacement onto the data.  For every permutation the multiset of offsets
applied to y is exactly the multiset of residuals, which genuine
with-replacement resampling would not guarantee. -/
theorem C1_bootstrap_resample_is_permutation {N : ℕ} (y residv : Fin N → ℝ)
    (σ : Equiv.Perm (Fin N)) :
    Multiset.map (fun i => bootResampY y residv σ i - y i) Finset.univ.val
      = Multiset.map residv Finset.univ.val := by
  unfold bootResampY
  simp only [add_sub_cancel_left]
  rw [show (fun i => residv (σ i)) = residv ∘ σ from rfl, ← Multiset.map_map]
  have hperm : Multiset.map (⇑σ) Finset.univ.val = Finset.univ.val := by
    simp [Finset.map_val]
  rw [hperm]

end TurbuStat
